import Mathlib

/-
Verification of the request-orchestration core of the xt-api-wrapper
client (FetchtiumClient, src/client.ts, together with src/errors.ts and
src/utils.ts): error model, response cache with TTL and FIFO eviction,
retry orchestrator, concurrency gate, URL validation, platform
detection, and batch fan-out.  Machine integers of the source are
modelled as Nat/Int; JS Map is modelled as an insertion-ordered
association list; the cooperative single-threaded scheduling of the
source is modelled as a step relation whose steps are the atomic
(await-free) blocks of the source.
-/

/-! ## Error model (src/errors.ts, FetchtiumError) -/

/-- Context attached to a FetchtiumError (interface ErrorContext in
src/errors.ts).  Only the fields the orchestration layer reads are kept;
absent optional fields are `none`, as an absent property is `undefined`. -/
structure ErrorContext where
  url : Option String := none
  platform : Option String := none
  requestId : Option String := none
  retryAttempt : Option Nat := none
  maxRetries : Option Nat := none
  retryAfter : Option Nat := none
  deriving Repr, DecidableEq

/-- FetchtiumError: code (the ErrorCode string union of src/types.ts is
modelled by its literal strings), optional HTTP status, message, context. -/
structure FetchtiumError where
  code : String
  message : String
  statusCode : Option Nat := none
  context : ErrorContext := {}
  deriving Repr, DecidableEq

/-- FetchtiumError.rateLimited (src/errors.ts lines 293-306): builds the
message from the optional retryAfter hint and sets statusCode 429.  The
constructor is called without a context option, so context is the empty
record (the hint is not stored in the context). -/
def FetchtiumError.rateLimited (retryAfter : Option Nat) : FetchtiumError :=
  { code := "RATE_LIMITED"
    message :=
      match retryAfter with
      | some n => "Rate limited. Retry after " ++ toString n ++ " seconds"
      | none => "Rate limited. Please try again later"
    statusCode := some 429
    context := {} }

/-- FetchtiumError.timeoutError (src/errors.ts): code TIMEOUT. -/
def FetchtiumError.timeoutError (timeout : Nat) : FetchtiumError :=
  { code := "TIMEOUT"
    message := "Request timed out after " ++ toString timeout ++ "ms"
    statusCode := none
    context := {} }

/-- FetchtiumError.invalidURL (src/errors.ts): code INVALID_URL, url in
context. -/
def FetchtiumError.invalidURL (url : String) : FetchtiumError :=
  { code := "INVALID_URL"
    message := "Invalid or unsupported URL: " ++ url
    statusCode := none
    context := { url := some url } }

/-! ## Configuration records (src/types.ts, defaults in src/client.ts) -/

/-- Retry configuration (interface RetryConfig). -/
structure RetryConfig where
  maxRetries : Nat
  retryDelay : Nat
  backoffMultiplier : Nat
  retryableErrors : List String
  deriving Repr, DecidableEq

/-- DEFAULT_CONFIG.retry of src/client.ts. -/
def defaultRetryConfig : RetryConfig :=
  { maxRetries := 3
    retryDelay := 1000
    backoffMultiplier := 2
    retryableErrors := ["NETWORK_ERROR", "TIMEOUT", "RATE_LIMITED", "INTERNAL_ERROR"] }

/-- Cache configuration (interface CacheConfig). -/
structure CacheConfig where
  enabled : Bool
  ttl : Nat
  maxSize : Nat
  deriving Repr, DecidableEq

/-- Rate-limit configuration (interface RateLimitConfig). -/
structure RateLimitConfig where
  maxConcurrent : Nat
  queueTimeout : Nat
  deriving Repr, DecidableEq

/-! ## Insertion-ordered map (the JS Map used for `this.cache`)

A JS Map iterates keys in insertion order; `set` on an existing key
updates the value in place keeping the original position; `delete`
removes; `keys().next().value` is the earliest-inserted key. -/

/-- Association list with JS-Map semantics. -/
def mapGet {α : Type} (m : List (String × α)) (k : String) : Option α :=
  match m with
  | [] => none
  | (k0, v0) :: rest => if k0 = k then some v0 else mapGet rest k

/-- Does the map contain the key. -/
def mapHas {α : Type} (m : List (String × α)) (k : String) : Bool :=
  match m with
  | [] => false
  | (k0, _) :: rest => k0 = k || mapHas rest k

/-- Map.set: update in place if present, else append at the end. -/
def mapSet {α : Type} (m : List (String × α)) (k : String) (v : α) :
    List (String × α) :=
  match m with
  | [] => [(k, v)]
  | (k0, v0) :: rest =>
    if k0 = k then (k0, v) :: rest else (k0, v0) :: mapSet rest k v

/-- Map.delete: remove the entry with the key, if any. -/
def mapDelete {α : Type} (m : List (String × α)) (k : String) :
    List (String × α) :=
  match m with
  | [] => []
  | (k0, v0) :: rest =>
    if k0 = k then rest else (k0, v0) :: mapDelete rest k

/-- cache.keys().next().value: the earliest-inserted key (none if empty). -/
def firstKey {α : Type} (m : List (String × α)) : Option String :=
  match m with
  | [] => none
  | (k0, _) :: _ => some k0

/-! ## Response cache (src/client.ts lines 1091-1149) -/

/-- One cache entry: stored response data (opaque payload, type
parameter), capture timestamp (ms), ttl (seconds). -/
structure CacheEntry (α : Type) where
  data : α
  timestamp : Nat
  ttl : Nat
  deriving Repr, DecidableEq

/-- The client's cache map. -/
def CacheMap (α : Type) : Type := List (String × CacheEntry α)

/-- generateCacheKey (src/client.ts line 1091). -/
def generateCacheKey (url : String) : String := "fetch:" ++ url

/-- getFromCache (src/client.ts lines 1095-1111): returns the looked-up
data (none on miss) and the cache after the lazy purge.  The source
compares `now - entry.timestamp > entry.ttl * 1000` on JS numbers, so the
subtraction is taken in Int. -/
def getFromCache {α : Type} (cfg : CacheConfig) (cache : CacheMap α)
    (now : Nat) (url : String) : Option α × CacheMap α :=
  if !cfg.enabled then (none, cache)
  else
    let key := generateCacheKey url
    match mapGet cache key with
    | none => (none, cache)
    | some entry =>
      if (now : Int) - entry.timestamp > entry.ttl * 1000 then
        (none, mapDelete cache key)
      else
        (some entry.data, cache)

/-- setCache (src/client.ts lines 1113-1131): when the current size has
reached maxSize, delete the earliest-inserted entry (if the map is
non-empty), then set the new entry under the generated key. -/
def setCache {α : Type} (cfg : CacheConfig) (cache : CacheMap α)
    (now : Nat) (url : String) (data : α) : CacheMap α :=
  if !cfg.enabled then cache
  else
    let cache1 :=
      if cfg.maxSize ≤ cache.length then
        match firstKey cache with
        | some oldestKey => mapDelete cache oldestKey
        | none => cache
      else cache
    mapSet cache1 (generateCacheKey url) { data := data, timestamp := now, ttl := cfg.ttl }

/-! ## URL validation and platform detection (src/utils.ts)

The WHATWG URL constructor used by `new URL(url)` is a host-environment
primitive, so the parser is a parameter: `parse url = some parts` models a
successful parse yielding the protocol (with trailing colon, e.g. "https:")
and the hostname, and `none` models the constructor throwing. -/

/-- The outcome of a successful `new URL(url)` parse. -/
structure URLParts where
  protocol : String
  hostname : String
  deriving Repr, DecidableEq

/-- A model of the host URL parser. -/
def URLParser : Type := String → Option URLParts

/-- isValidURL (src/utils.ts lines 54-61): the string parses and its
protocol is http: or https:. -/
def isValidURL (parse : URLParser) (url : String) : Bool :=
  match parse url with
  | none => false
  | some parts => parts.protocol == "http:" || parts.protocol == "https:"

/-- validateURL (src/client.ts lines 1022-1029): throws
FetchtiumError.invalidURL when the string is empty (JS falsy) or fails
isValidURL. -/
def validateURL (parse : URLParser) (url : String) : Except FetchtiumError Unit :=
  if url = "" then Except.error (FetchtiumError.invalidURL url)
  else if !(isValidURL parse url) then Except.error (FetchtiumError.invalidURL url)
  else Except.ok ()

/-- ASCII lowering of one character, the effect of JS toLowerCase() on
the ASCII range (hostnames and issue codes are ASCII). -/
def charToLower (c : Char) : Char :=
  if 'A' ≤ c ∧ c ≤ 'Z' then Char.ofNat (c.toNat + 32) else c

/-- Model of JS String.prototype.toLowerCase(). -/
def strToLower (s : String) : String := ⟨s.data.map charToLower⟩

/-- The Platform string union of src/types.ts. -/
inductive Platform where
  | instagram | facebook | twitter | tiktok | youtube | weibo
  | reddit | bilibili | soundcloud | pixiv
  | erome | eporner | pornhub | rule34video
  deriving Repr, DecidableEq

/-- PLATFORM_PATTERNS (src/utils.ts lines 34-49), in object-literal key
order (the order Object.entries iterates).  Every regular expression in
the source is a literal string with escaped dots, so each is recorded as
the literal substring it tests for. -/
def PLATFORM_PATTERNS : List (Platform × List String) :=
  [ (.instagram, ["instagram.com", "instagr.am"])
  , (.facebook, ["facebook.com", "fb.watch", "fb.com"])
  , (.twitter, ["twitter.com", "x.com", "t.co"])
  , (.tiktok, ["tiktok.com", "vm.tiktok.com"])
  , (.youtube, ["youtube.com", "youtu.be", "youtube.shorts"])
  , (.weibo, ["weibo.com", "weibo.cn"])
  , (.reddit, ["reddit.com", "redd.it"])
  , (.bilibili, ["bilibili.com", "b23.tv"])
  , (.soundcloud, ["soundcloud.com"])
  , (.pixiv, ["pixiv.net"])
  , (.erome, ["erome.com"])
  , (.eporner, ["eporner.com"])
  , (.pornhub, ["pornhub.com"])
  , (.rule34video, ["rule34video.com"]) ]

/-- Does the first character list start with the second. -/
def listStartsWith : List Char → List Char → Bool
  | _, [] => true
  | [], _ :: _ => false
  | a :: as, b :: bs => a == b && listStartsWith as bs

/-- Does the first character list contain the second as a contiguous
segment. -/
def listContainsSeg : List Char → List Char → Bool
  | [], p => p.isEmpty
  | h :: t, p => listStartsWith (h :: t) p || listContainsSeg t p

/-- Unanchored test of a literal pattern against a string: the semantics
of `/lit/.test(s)` for a regular expression with no metacharacters. -/
def strContainsSeg (s pat : String) : Bool :=
  listContainsSeg s.data pat.data

/-- detectPlatform (src/utils.ts lines 67-79): validate, lowercase the
hostname, return the first platform (in table order) one of whose
patterns matches the hostname. -/
def detectPlatform (parse : URLParser) (url : String) : Option Platform :=
  if !(isValidURL parse url) then none
  else
    match parse url with
    | none => none
    | some parts =>
      let hostname := strToLower parts.hostname
      (PLATFORM_PATTERNS.find? (fun pr => pr.2.any (fun pat => strContainsSeg hostname pat))).map
        (fun pr => pr.1)

/-! ## Retry orchestrator (src/client.ts lines 1038-1081)

The loop body of fetchWithRetry is: call the base fetch; on success
return; on a FetchtiumError, if its code is not in retryableErrors or
`attempt >= maxRetries` rethrow, else increment attempt, sleep the
computed delay, and loop.  The loop is translated to structural
recursion on `remaining = maxRetries - attempt`; the base fetch is an
oracle indexed by the invocation count, and the pair returned carries
the number of transport invocations performed. -/

/-- One iteration chain of the while-loop of fetchWithRetry.  `remaining`
is `maxRetries - attempt`; `calls` counts invocations already made. -/
def retryAux {α : Type} (retryable : FetchtiumError → Bool)
    (transport : Nat → Except FetchtiumError α) :
    Nat → Nat → Except FetchtiumError α × Nat
  | calls, 0 =>
    match transport calls with
    | .ok v => (.ok v, calls + 1)
    | .error e => (.error e, calls + 1)
  | calls, r + 1 =>
    match transport calls with
    | .ok v => (.ok v, calls + 1)
    | .error e =>
      if retryable e then retryAux retryable transport (calls + 1) r
      else (.error e, calls + 1)

/-- fetchWithRetry's retry behaviour (after URL validation, cache
disabled): result of the source loop together with the number of base
invocations.  An error is retryable when retryableErrors includes its
code (line 1056). -/
def fetchWithRetryModel {α : Type} (cfg : RetryConfig)
    (transport : Nat → Except FetchtiumError α) :
    Except FetchtiumError α × Nat :=
  retryAux (fun e => cfg.retryableErrors.contains e.code) transport 0 cfg.maxRetries

/-- The delay slept before the retry numbered `attempt` (the value after
the `attempt++` of line 1060, so `attempt ≥ 1`): lines 1062-1072.  The
server delay branch requires `error.statusCode === 429` and a truthy
`error.context.retryAfter` (a present, non-zero hint). -/
def retryWaitMs (cfg : RetryConfig) (e : FetchtiumError) (attempt : Nat) : Nat :=
  let delay := cfg.retryDelay * cfg.backoffMultiplier ^ (attempt - 1)
  match e.statusCode, e.context.retryAfter with
  | some 429, some ra => if ra ≠ 0 then max delay (ra * 1000) else delay
  | _, _ => delay

/-- The transport oracle of the retry tests: fails with the given error
on the first n invocations and succeeds with v from invocation n+1 on. -/
def failNThen {α : Type} (e : FetchtiumError) (v : α) (n : Nat) :
    Nat → Except FetchtiumError α :=
  fun k => if k < n then .error e else .ok v

/-! ## Concurrency gate (src/client.ts lines 1155-1208)

The scheduling model of the source is cooperative and single-threaded:
the check-then-increment of executeWithRateLimit, the drain loop of
processQueue, a task completion (the finally block plus the processQueue
it triggers) and a queue-timeout callback each run without interleaving.
The gate is therefore a transition system whose steps are exactly those
atomic blocks.  Callers are identified by tokens (Nat); `used` records
every token that has ever arrived, so that tokens are never reused
(each call of executeWithRateLimit creates fresh closures). -/

/-- State of the gate: the activeRequests counter, the identities of the
tasks currently executing the wrapped body, the pending queue (front =
earliest arrival), and all tokens seen so far. -/
structure GateState where
  active : Nat
  running : List Nat
  queue : List Nat
  used : List Nat
  deriving Repr, DecidableEq

/-- The initial gate state of a fresh client. -/
def initialGate : GateState :=
  { active := 0, running := [], queue := [], used := [] }

/-- processQueue (src/client.ts lines 1191-1208): while the queue is
non-empty and activeRequests is below maxConcurrent, shift the head,
increment activeRequests and start the shifted task. -/
def processQueue (maxConcurrent : Nat) (s : GateState) : GateState :=
  match hq : s.queue with
  | [] => s
  | item :: rest =>
    if s.active < maxConcurrent then
      processQueue maxConcurrent
        { s with active := s.active + 1, running := s.running ++ [item], queue := rest }
    else s
termination_by s.queue.length
decreasing_by simp [hq]

/-- One atomic block of the gate.
arriveRun: executeWithRateLimit with spare capacity (lines 1156-1165);
arriveQueue: executeWithRateLimit at capacity pushes the caller (1175-1187);
complete: a running task finishes, the finally block decrements the
counter and drains the queue (1161-1164 and 1200-1203);
timeoutFire: a queued caller's timer fires, rejecting it and splicing it
out of the queue (1169-1173). -/
inductive GateStep (maxConcurrent : Nat) : GateState → GateState → Prop where
  | arriveRun (r : Nat) (s : GateState) (hfresh : r ∉ s.used)
      (hcap : s.active < maxConcurrent) :
      GateStep maxConcurrent s
        { active := s.active + 1, running := s.running ++ [r],
          queue := s.queue, used := s.used ++ [r] }
  | arriveQueue (r : Nat) (s : GateState) (hfresh : r ∉ s.used)
      (hcap : ¬ s.active < maxConcurrent) :
      GateStep maxConcurrent s
        { s with queue := s.queue ++ [r], used := s.used ++ [r] }
  | complete (r : Nat) (s : GateState) (hr : r ∈ s.running) :
      GateStep maxConcurrent s
        (processQueue maxConcurrent
          { s with active := s.active - 1, running := s.running.erase r })
  | timeoutFire (r : Nat) (s : GateState) (hq : r ∈ s.queue) :
      GateStep maxConcurrent s { s with queue := s.queue.erase r }

/-- Zero or more gate steps. -/
inductive GateSteps (maxConcurrent : Nat) : GateState → GateState → Prop where
  | refl (s : GateState) : GateSteps maxConcurrent s s
  | tail {s t u : GateState} : GateSteps maxConcurrent s t →
      GateStep maxConcurrent t u → GateSteps maxConcurrent s u

/-- States reachable from the fresh client. -/
def GateReachable (maxConcurrent : Nat) (s : GateState) : Prop :=
  GateSteps maxConcurrent initialGate s

/-- Invariant of the gate: the activeRequests counter equals the number
of running tasks and never exceeds maxConcurrent; queue and running hold
pairwise-distinct tokens, are disjoint, and only hold tokens that have
arrived. -/
def GateInv (maxConcurrent : Nat) (s : GateState) : Prop :=
  s.active = s.running.length ∧ s.active ≤ maxConcurrent ∧
  s.queue.Nodup ∧ s.running.Nodup ∧
  (∀ r ∈ s.queue, r ∉ s.running) ∧
  (∀ r ∈ s.queue, r ∈ s.used) ∧
  (∀ r ∈ s.running, r ∈ s.used)

/-! ## Single fetch, merge, convert (src/client.ts lines 552-836)

Sequential specialization for one caller against an idle gate: the gate
admits the request immediately and runs the thunk once, so the HTTP
transport is an oracle and the models count how many times it is
invoked.  The wall clock (Date.now) and the generated request id are
parameters. -/

/-- The name a Platform value prints as (the Platform string union). -/
def platformName : Platform → String
  | .instagram => "instagram"
  | .facebook => "facebook"
  | .twitter => "twitter"
  | .tiktok => "tiktok"
  | .youtube => "youtube"
  | .weibo => "weibo"
  | .reddit => "reddit"
  | .bilibili => "bilibili"
  | .soundcloud => "soundcloud"
  | .pixiv => "pixiv"
  | .erome => "erome"
  | .eporner => "eporner"
  | .pornhub => "pornhub"
  | .rule34video => "rule34video"

/-- The JSON body of POST /api/v1/publicservices as consumed by fetch:
success flag, optional new-format code and error message, the legacy
data.issues array (empty when absent), and the rest of the payload. -/
structure FetchtiumResponse (α : Type) where
  success : Bool
  code : Option String := none
  error : Option String := none
  issues : List String := []
  payload : α
  deriving Repr, DecidableEq

/-- mapIssueToErrorCode (src/client.ts lines 984-1011). -/
def mapIssueToErrorCode (issue : String) : String :=
  let lower := strToLower issue
  if lower = "login_required" then "LOGIN_REQUIRED"
  else if lower = "checkpoint" then "CHECKPOINT_REQUIRED"
  else if lower = "cookies_required" then "COOKIE_REQUIRED"
  else if lower = "no_healthy_cookies" then "COOKIE_REQUIRED"
  else if lower = "all_cookies_failed" then "COOKIE_REQUIRED"
  else if lower = "no_media" then "NO_MEDIA_FOUND"
  else if lower = "private" then "PRIVATE_CONTENT"
  else if lower = "private_or_friends" then "PRIVATE_CONTENT"
  else if lower = "age_restricted" then "AGE_RESTRICTED"
  else if lower = "content_removed" then "CONTENT_REMOVED"
  else if lower = "story_expired" then "STORY_EXPIRED"
  else if lower = "rate_limited" then "RATE_LIMITED"
  else if lower = "invalid_url" then "INVALID_URL"
  else if lower = "unsupported_platform" then "UNSUPPORTED_PLATFORM"
  else if lower = "parse_error" then "PARSE_ERROR"
  else "API_ERROR"

/-- The UNSUPPORTED_PLATFORM error thrown by fetch (line 559). -/
def unsupportedPlatformError (url : String) : FetchtiumError :=
  { code := "UNSUPPORTED_PLATFORM"
    message := "URL does not match any supported platform: " ++ url }

/-- The error built from a success:false body (src/client.ts lines
578-610): the new format when response.code is truthy, otherwise the
legacy data.issues mapping, where a falsy issues[0] defaults to
API_ERROR. -/
def mapResponseError {α : Type} (url : String) (platform : Platform)
    (requestId : String) (r : FetchtiumResponse α) : FetchtiumError :=
  let ctx : ErrorContext :=
    { url := some url, platform := some (platformName platform),
      requestId := some requestId }
  match r.code with
  | some c =>
    if c ≠ "" then
      { code := c
        message := (match r.error with | some m => if m ≠ "" then m else "Unknown error" | none => "Unknown error")
        context := ctx }
    else
      { code := mapIssueToErrorCode (match r.issues with | [] => "API_ERROR" | h :: _ => if h = "" then "API_ERROR" else h)
        message := "Failed to fetch media: " ++ (if r.issues.length > 0 then String.intercalate ", " r.issues else "Unknown error")
        context := ctx }
  | none =>
      { code := mapIssueToErrorCode (match r.issues with | [] => "API_ERROR" | h :: _ => if h = "" then "API_ERROR" else h)
        message := "Failed to fetch media: " ++ (if r.issues.length > 0 then String.intercalate ", " r.issues else "Unknown error")
        context := ctx }

/-- fetch (src/client.ts lines 552-617): validate, detect platform,
consult the cache, invoke the transport through the gate, map a
success:false body to an error, store a success in the cache.  Returns
the outcome, the number of transport invocations, and the cache after
the call. -/
def fetchModel {α : Type} (parse : URLParser) (cacheCfg : CacheConfig)
    (cache : CacheMap (FetchtiumResponse α)) (now : Nat) (requestId : String)
    (transport : Except FetchtiumError (FetchtiumResponse α)) (url : String) :
    Except FetchtiumError (FetchtiumResponse α) × Nat × CacheMap (FetchtiumResponse α) :=
  match validateURL parse url with
  | .error e => (.error e, 0, cache)
  | .ok _ =>
    match detectPlatform parse url with
    | none => (.error (unsupportedPlatformError url), 0, cache)
    | some platform =>
      match getFromCache cacheCfg cache now url with
      | (some cached, cache2) => (.ok cached, 0, cache2)
      | (none, cache2) =>
        match transport with
        | .error e => (.error e, 1, cache2)
        | .ok response =>
          if !response.success then
            (.error (mapResponseError url platform requestId response), 1, cache2)
          else
            (.ok response, 1, setCache cacheCfg cache2 now url response)

/-- merge (src/client.ts lines 643-732): validate the URL, require the
youtube platform, require a truthy quality, then call the merge
endpoint once (the blob/filename handling of the 2xx path is the opaque
transport result).  Returns the outcome and the transport call count. -/
def mergeModel {β : Type} (parse : URLParser)
    (transport : Except FetchtiumError β) (url : String) (quality : String) :
    Except FetchtiumError β × Nat :=
  match validateURL parse url with
  | .error e => (.error e, 0)
  | .ok _ =>
    if detectPlatform parse url ≠ some Platform.youtube then
      (.error { code := "UNSUPPORTED_PLATFORM", message := "Merge is only supported for YouTube URLs" }, 0)
    else if quality = "" then
      (.error { code := "BAD_REQUEST", message := "Quality parameter is required" }, 0)
    else
      (transport, 1)

/-- convert (src/client.ts lines 758-836): validate the URL, require a
supported platform, default a falsy format to mp3 and require mp3/m4a,
then call the convert endpoint once. -/
def convertModel {β : Type} (parse : URLParser)
    (transport : Except FetchtiumError β) (url : String) (format : Option String) :
    Except FetchtiumError β × Nat :=
  match validateURL parse url with
  | .error e => (.error e, 0)
  | .ok _ =>
    match detectPlatform parse url with
    | none => (.error { code := "UNSUPPORTED_PLATFORM", message := "URL does not match any supported platform" }, 0)
    | some _ =>
      let fmt := match format with
        | some f => if f = "" then "mp3" else f
        | none => "mp3"
      if fmt ≠ "mp3" ∧ fmt ≠ "m4a" then
        (.error { code := "BAD_REQUEST", message := "Format must be \"mp3\" or \"m4a\"" }, 1)
      else
        (transport, 1)

/-! ## Batch orchestrator (src/client.ts lines 1235-1307)

Specialization to concurrency 1, where the active set holds at most one
promise and Promise.race awaits exactly it, so the loop processes the
url queue in order.  processUrl records the outcome of every item
(success or failure) in the results array before, with stopOnError, the
error escapes through the race and rejects the whole call.  The model
keeps the accumulated results as an argument; the rejection value is the
bare FetchtiumError of the failing item, as in the source. -/

/-- One per-URL outcome of fetchBatch (response time omitted: it is the
wall-clock difference the claims do not touch). -/
structure BatchResult (α : Type) where
  url : String
  success : Bool
  data : Option α := none
  error : Option FetchtiumError := none
  deriving Repr, DecidableEq

/-- The fetchBatch loop at concurrency 1.  `results` is the accumulated
results array.  The first component is the value the caller receives:
the results array on normal completion, or — on a failure with
stopOnError — the bare FetchtiumError of the failing item.  The second
component is the final state of the internal (method-local) results
array, which records every processed item including the failing one. -/
def fetchBatchSeq {α : Type} (fetchOne : String → Except FetchtiumError α)
    (stopOnError : Bool) :
    List String → List (BatchResult α) →
    Except FetchtiumError (List (BatchResult α)) × List (BatchResult α)
  | [], results => (.ok results, results)
  | url :: rest, results =>
    match fetchOne url with
    | .ok d =>
      fetchBatchSeq fetchOne stopOnError rest
        (results ++ [{ url := url, success := true, data := some d }])
    | .error e =>
      let results2 := results ++ [{ url := url, success := false, error := some e }]
      if stopOnError then (.error e, results2)
      else fetchBatchSeq fetchOne stopOnError rest results2

/-! ## Experiment harness and concrete instances used in the theorems -/

/-- A sequence of cache inserts: fold setCache over a list of URLs, the
data of url u being dfn u. -/
def pushAll {α : Type} (cfg : CacheConfig) (now : Nat) (dfn : String → α)
    (cache : CacheMap α) (urls : List String) : CacheMap α :=
  urls.foldl (fun c u => setCache cfg c now u (dfn u)) cache

/-- A URL parser that rejects every string (for invalid-URL instances). -/
def noParse : URLParser := fun _ => none

/-- A URL parser defined on one hostile URL whose hostname ends in
instagram.com.attacker.net. -/
def exParse : URLParser := fun s =>
  if s = "https://instagram.com.attacker.net/p/x" then
    some { protocol := "https:", hostname := "instagram.com.attacker.net" }
  else none

/-- An enabled cache configuration with ttl 1 s. -/
def exCacheCfg : CacheConfig := { enabled := true, ttl := 1, maxSize := 100 }

/-- An enabled cache configuration with maxSize 0. -/
def exCfgZero : CacheConfig := { enabled := true, ttl := 300, maxSize := 0 }

/-- The rate-limited error a 429 without Retry-After produces. -/
def exErr429 : FetchtiumError := FetchtiumError.rateLimited none

/-- Batch transport where u1 succeeds with 1 and everything else is
rate-limited. -/
def exBatchT1 : String → Except FetchtiumError Nat :=
  fun u => if u = "u1" then .ok 1 else .error exErr429

/-- Batch transport where u1 succeeds with 2 and everything else is
rate-limited. -/
def exBatchT3 : String → Except FetchtiumError Nat :=
  fun u => if u = "u1" then .ok 2 else .error exErr429

/-! ## Helper lemmas about the insertion-ordered map -/

/-- Keys of a map state are pairwise distinct (every reachable JS Map
satisfies this). -/
def keysNodup {α : Type} (m : List (String × α)) : Prop :=
  (m.map Prod.fst).Nodup

theorem mapGet_mapSet_self {α : Type} (m : List (String × α)) (k : String) (v : α) :
    mapGet (mapSet m k v) k = some v := by
  induction m with
  | nil => simp [mapSet, mapGet]
  | cons hd tl ih =>
    obtain ⟨k0, v0⟩ := hd
    by_cases h : k0 = k
    · simp [mapSet, mapGet, h]
    · simp [mapSet, mapGet, h, ih]

theorem mapSet_of_get_none {α : Type} (m : List (String × α)) (k : String) (v : α)
    (h : mapGet m k = none) : mapSet m k v = m ++ [(k, v)] := by
  induction m with
  | nil => simp [mapSet]
  | cons hd tl ih =>
    obtain ⟨k0, v0⟩ := hd
    by_cases hk : k0 = k
    · simp [mapGet, hk] at h
    · simp [mapGet, hk] at h
      simp [mapSet, hk, ih h]

theorem mapHas_iff_get {α : Type} (m : List (String × α)) (k : String) :
    mapHas m k = true ↔ mapGet m k ≠ none := by
  induction m with
  | nil => simp [mapHas, mapGet]
  | cons hd tl ih =>
    obtain ⟨k0, v0⟩ := hd
    by_cases hk : k0 = k
    · simp [mapHas, mapGet, hk]
    · simp [mapHas, mapGet, hk, ih]

theorem length_mapDelete_of_has {α : Type} (m : List (String × α)) (k : String)
    (h : mapHas m k = true) : (mapDelete m k).length + 1 = m.length := by
  induction m with
  | nil => simp [mapHas] at h
  | cons hd tl ih =>
    obtain ⟨k0, v0⟩ := hd
    by_cases hk : k0 = k
    · simp [mapDelete, hk]
    · simp [mapHas, hk] at h
      simp [mapDelete, hk, ih h]

theorem length_mapSet_of_has {α : Type} (m : List (String × α)) (k : String) (v : α)
    (h : mapHas m k = true) : (mapSet m k v).length = m.length := by
  induction m with
  | nil => simp [mapHas] at h
  | cons hd tl ih =>
    obtain ⟨k0, v0⟩ := hd
    by_cases hk : k0 = k
    · simp [mapSet, hk]
    · simp [mapHas, hk] at h
      simp [mapSet, hk, ih h]

theorem mem_keys_of_get_some {α : Type} (m : List (String × α)) (k : String) (v : α)
    (h : mapGet m k = some v) : k ∈ m.map Prod.fst := by
  induction m with
  | nil => simp [mapGet] at h
  | cons hd tl ih =>
    obtain ⟨k0, v0⟩ := hd
    by_cases hk : k0 = k
    · simp [hk]
    · simp [mapGet, hk] at h
      simp [ih h]

theorem mapHas_mapDelete_self {α : Type} (m : List (String × α)) (k : String)
    (hnd : keysNodup m) : mapHas (mapDelete m k) k = false := by
  induction m with
  | nil => simp [mapDelete, mapHas]
  | cons hd tl ih =>
    obtain ⟨k0, v0⟩ := hd
    have hnd' : (k0 :: tl.map Prod.fst).Nodup := by simpa [keysNodup] using hnd
    have hnd2 := List.nodup_cons.mp hnd'
    by_cases hk : k0 = k
    · subst hk
      have hdel : mapDelete ((k0, v0) :: tl) k0 = tl := by simp [mapDelete]
      rw [hdel]
      cases hb : mapHas tl k0 with
      | false => rfl
      | true =>
        have hget := (mapHas_iff_get tl k0).mp hb
        cases hgv : mapGet tl k0 with
        | none => exact absurd hgv hget
        | some v => exact absurd (mem_keys_of_get_some tl k0 v hgv) hnd2.1
    · simp only [mapDelete, if_neg hk, mapHas]
      rw [ih hnd2.2]
      simp [hk]

theorem mapHas_mapDelete_ne {α : Type} (m : List (String × α)) (k k2 : String)
    (hne : k2 ≠ k) : mapHas (mapDelete m k) k2 = mapHas m k2 := by
  induction m with
  | nil => simp [mapDelete]
  | cons hd tl ih =>
    obtain ⟨k0, v0⟩ := hd
    by_cases hk : k0 = k
    · subst hk
      simp [mapDelete, mapHas]
      intro h
      exact absurd h.symm hne
    · simp [mapDelete, hk, mapHas, ih]

theorem mapHas_mapSet {α : Type} (m : List (String × α)) (k k2 : String) (v : α) :
    mapHas (mapSet m k v) k2 = (mapHas m k2 || decide (k = k2)) := by
  induction m with
  | nil =>
    by_cases h : k = k2
    · simp [mapSet, mapHas, h]
    · simp [mapSet, mapHas, h]
  | cons hd tl ih =>
    obtain ⟨k0, v0⟩ := hd
    by_cases hk : k0 = k
    · subst hk
      by_cases hk2 : k0 = k2
      · simp [mapSet, mapHas, hk2]
      · simp [mapSet, mapHas, hk2]
    · simp [mapSet, hk, mapHas, ih, Bool.or_assoc]

/-! ## Cache claims -/

theorem setCache_get_self {α : Type} (cfg : CacheConfig) (cache : CacheMap α)
    (t0 : Nat) (u : String) (d : α) (hen : cfg.enabled = true) :
    mapGet (setCache cfg cache t0 u d) (generateCacheKey u) =
      some { data := d, timestamp := t0, ttl := cfg.ttl } := by
  simp [setCache, hen, mapGet_mapSet_self]

theorem getFromCache_some {α : Type} (cfg : CacheConfig) (cache : CacheMap α)
    (now : Nat) (u : String) (entry : CacheEntry α) (hen : cfg.enabled = true)
    (hget : mapGet cache (generateCacheKey u) = some entry) :
    getFromCache cfg cache now u =
      if (now : Int) - entry.timestamp > entry.ttl * 1000 then
        (none, mapDelete cache (generateCacheKey u))
      else (some entry.data, cache) := by
  simp [getFromCache, hen, hget]

/-- Claim C3, counterexample: with ttl = 1 s, an entry stored at time 0
and looked up at elapsed time exactly 1000 ms — i.e. elapsed ≥ ttl*1000,
where the claim predicts a miss and a purge — is returned as a hit and
kept, because the source treats an entry as expired only when
now − timestamp is strictly greater than ttl*1000. -/
theorem C3_counterexample :
    getFromCache exCacheCfg (setCache exCacheCfg ([] : CacheMap Nat) 0 "u" 37) 1000 "u" =
      (some 37, setCache exCacheCfg ([] : CacheMap Nat) 0 "u" 37) ∧
    exCacheCfg.ttl * 1000 ≤ 1000 - 0 := by
  constructor
  · rfl
  · decide

/-- Claim C3 (amended): an entry is valid iff now − timestamp ≤ ttl*1000.
After a put of d under url u at time t0 with TTL T, a lookup of u at
elapsed time at most T*1000 ms returns the stored d and leaves the cache
unchanged, and a lookup at elapsed time strictly greater than T*1000 ms
misses and deletes the entry. -/
theorem C3_cache_ttl_roundtrip {α : Type} (cfg : CacheConfig) (cache : CacheMap α)
    (t0 now : Nat) (u : String) (d : α) (hen : cfg.enabled = true) (hle : t0 ≤ now) :
    (now - t0 ≤ cfg.ttl * 1000 →
      getFromCache cfg (setCache cfg cache t0 u d) now u =
        (some d, setCache cfg cache t0 u d)) ∧
    (cfg.ttl * 1000 < now - t0 →
      getFromCache cfg (setCache cfg cache t0 u d) now u =
        (none, mapDelete (setCache cfg cache t0 u d) (generateCacheKey u))) := by
  have hget := setCache_get_self cfg cache t0 u d hen
  constructor
  · intro hsmall
    rw [getFromCache_some cfg _ now u _ hen hget]
    have hc : ¬ ((now : Int) - (t0 : Int) > (cfg.ttl : Int) * 1000) := by omega
    simp only [gt_iff_lt]
    rw [if_neg (by simpa using hc)]
  · intro hbig
    rw [getFromCache_some cfg _ now u _ hen hget]
    have hc : (now : Int) - (t0 : Int) > (cfg.ttl : Int) * 1000 := by omega
    simp only [gt_iff_lt]
    rw [if_pos (by simpa using hc)]

/-- Witness for C3_cache_ttl_roundtrip at ttl 1 s, elapsed 1001 ms. -/
theorem C3_cache_ttl_roundtrip_witness :
    getFromCache exCacheCfg (setCache exCacheCfg ([] : CacheMap Nat) 0 "v" 5) 1001 "v" =
      (none, mapDelete (setCache exCacheCfg ([] : CacheMap Nat) 0 "v" 5) (generateCacheKey "v")) :=
  (C3_cache_ttl_roundtrip exCacheCfg [] 0 1001 "v" 5 rfl (by decide)).2 (by decide)

theorem generateCacheKey_inj (u1 u2 : String) (h : generateCacheKey u1 = generateCacheKey u2) :
    u1 = u2 := by
  unfold generateCacheKey at h
  obtain ⟨d1⟩ := u1
  obtain ⟨d2⟩ := u2
  have h2 : ("fetch:".data ++ d1) = ("fetch:".data ++ d2) := congrArg String.data h
  exact congrArg String.mk (List.append_cancel_left h2)

theorem mapGet_map_keyed_none {α : Type} (g : String → α) (pre : List String) (u : String)
    (hu : u ∉ pre) :
    mapGet (pre.map (fun x => (generateCacheKey x, g x))) (generateCacheKey u) = none := by
  induction pre with
  | nil => simp [mapGet]
  | cons p ps ih =>
    have hne : generateCacheKey p ≠ generateCacheKey u := by
      intro he
      exact hu (by simp [generateCacheKey_inj p u he])
    simp only [List.map_cons, mapGet, if_neg hne]
    exact ih (fun hmem => hu (List.mem_cons_of_mem p hmem))

theorem mapGet_map_keyed_some {α : Type} (g : String → α) (pre : List String) (u : String)
    (hnd : pre.Nodup) (hu : u ∈ pre) :
    mapGet (pre.map (fun x => (generateCacheKey x, g x))) (generateCacheKey u) = some (g u) := by
  induction pre with
  | nil => simp at hu
  | cons p ps ih =>
    rcases List.mem_cons.mp hu with he | hm
    · subst he
      simp [mapGet]
    · have hne : generateCacheKey p ≠ generateCacheKey u := by
        intro he
        have : p = u := generateCacheKey_inj p u he
        subst this
        exact (List.nodup_cons.mp hnd).1 hm
      simp only [List.map_cons, mapGet, if_neg hne]
      exact ih (List.nodup_cons.mp hnd).2 hm

theorem pushAll_fill {α : Type} (cfg : CacheConfig) (now : Nat) (dfn : String → α)
    (hen : cfg.enabled = true) :
    ∀ (urls pre : List String), (pre ++ urls).Nodup →
      pre.length + urls.length ≤ cfg.maxSize →
      pushAll cfg now dfn
          (pre.map (fun x => (generateCacheKey x, { data := dfn x, timestamp := now, ttl := cfg.ttl }))) urls =
        (pre ++ urls).map (fun x => (generateCacheKey x, { data := dfn x, timestamp := now, ttl := cfg.ttl })) := by
  intro urls
  induction urls with
  | nil =>
    intro pre _ _
    simp [pushAll]
  | cons u rest ih =>
    intro pre hnd hlen
    have hnotin : u ∉ pre := by
      intro hmem
      have hdis := (List.nodup_append.mp hnd).2.2
      exact hdis hmem (List.mem_cons_self u rest)
    have hsize : ¬ (cfg.maxSize ≤ pre.length) := by
      simp only [List.length_cons] at hlen
      omega
    have hstep :
        setCache cfg (pre.map (fun x => (generateCacheKey x, ⟨dfn x, now, cfg.ttl⟩))) now u (dfn u) =
          (pre ++ [u]).map (fun x => (generateCacheKey x, ⟨dfn x, now, cfg.ttl⟩)) := by
      rw [show setCache cfg (pre.map (fun x => (generateCacheKey x, ⟨dfn x, now, cfg.ttl⟩))) now u (dfn u) =
            mapSet (pre.map (fun x => (generateCacheKey x, ⟨dfn x, now, cfg.ttl⟩)))
              (generateCacheKey u) ⟨dfn u, now, cfg.ttl⟩ by
        simp [setCache, hen, hsize]]
      rw [mapSet_of_get_none _ _ _ (mapGet_map_keyed_none _ pre u hnotin)]
      simp
    have hpush : pushAll cfg now dfn
          (pre.map (fun x => (generateCacheKey x, ⟨dfn x, now, cfg.ttl⟩))) (u :: rest) =
        pushAll cfg now dfn
          ((pre ++ [u]).map (fun x => (generateCacheKey x, ⟨dfn x, now, cfg.ttl⟩))) rest := by
      simp only [pushAll, List.foldl_cons]
      rw [show (setCache cfg (pre.map (fun x => (generateCacheKey x, ⟨dfn x, now, cfg.ttl⟩))) now u (dfn u)) =
            (pre ++ [u]).map (fun x => (generateCacheKey x, ⟨dfn x, now, cfg.ttl⟩)) from hstep]
    rw [hpush]
    have hnd2 : ((pre ++ [u]) ++ rest).Nodup := by
      simpa using hnd
    have hlen2 : (pre ++ [u]).length + rest.length ≤ cfg.maxSize := by
      simp only [List.length_append, List.length_cons, List.length_nil] at hlen ⊢
      omega
    rw [ih (pre ++ [u]) hnd2 hlen2]
    simp

/-- Claim C5 (amended): for every maxSize ≥ 1, inserting maxSize + 1
distinct keys into an empty enabled cache leaves exactly maxSize
entries, with the first-inserted key absent and all later keys present
(insertion-order FIFO eviction of one entry on the single overflowing
insert). -/
theorem C5_fifo_eviction {α : Type} (cfg : CacheConfig) (now : Nat) (dfn : String → α)
    (u0 : String) (rest : List String) (hen : cfg.enabled = true)
    (hnd : (u0 :: rest).Nodup) (hpos : 1 ≤ cfg.maxSize)
    (hlen : rest.length = cfg.maxSize) :
    (pushAll cfg now dfn [] (u0 :: rest)).length = cfg.maxSize ∧
    mapGet (pushAll cfg now dfn [] (u0 :: rest)) (generateCacheKey u0) = none ∧
    ∀ u ∈ rest, mapGet (pushAll cfg now dfn [] (u0 :: rest)) (generateCacheKey u) =
      some { data := dfn u, timestamp := now, ttl := cfg.ttl } := by
  rcases List.eq_nil_or_concat rest with hr | ⟨mid, ulast, hr⟩
  · rw [hr] at hlen
    simp at hlen
    omega
  rw [List.concat_eq_append] at hr
  have hmidlen : mid.length + 1 = cfg.maxSize := by
    rw [hr] at hlen
    simpa using hlen
  have hsubfill : List.Sublist (u0 :: mid) (u0 :: rest) := by
    rw [hr]
    exact List.Sublist.cons₂ u0 (List.sublist_append_left mid [ulast])
  have hndfill : (u0 :: mid).Nodup := hnd.sublist hsubfill
  have hfill :
      pushAll cfg now dfn [] (u0 :: mid) =
        (u0 :: mid).map (fun x => (generateCacheKey x, ⟨dfn x, now, cfg.ttl⟩)) := by
    have := pushAll_fill cfg now dfn hen (u0 :: mid) [] (by simpa using hndfill)
      (by simp only [List.length_cons, List.length_nil]; omega)
    simpa using this
  have hsplit :
      pushAll cfg now dfn [] (u0 :: rest) =
        setCache cfg (pushAll cfg now dfn [] (u0 :: mid)) now ulast (dfn ulast) := by
    rw [hr, show u0 :: (mid ++ [ulast]) = (u0 :: mid) ++ [ulast] by simp]
    simp [pushAll, List.foldl_append]
  have hulast_notin : ulast ∉ u0 :: mid := by
    intro hmem
    have hnd2 : (u0 :: mid ++ [ulast]).Nodup := by rw [hr] at hnd; exact hnd
    have := List.nodup_append.mp (show ((u0 :: mid) ++ [ulast]).Nodup by simpa using hnd2)
    exact this.2.2 hmem (by simp)
  have hfinal :
      pushAll cfg now dfn [] (u0 :: rest) =
        rest.map (fun x => (generateCacheKey x, ⟨dfn x, now, cfg.ttl⟩)) := by
    rw [hsplit, hfill]
    have hsizefull :
        cfg.maxSize ≤ ((u0 :: mid).map (fun x => (generateCacheKey x, (⟨dfn x, now, cfg.ttl⟩ : CacheEntry α)))).length := by
      simp only [List.length_map, List.length_cons]
      omega
    have hdel :
        mapDelete ((u0 :: mid).map (fun x => (generateCacheKey x, (⟨dfn x, now, cfg.ttl⟩ : CacheEntry α)))) (generateCacheKey u0) =
          mid.map (fun x => (generateCacheKey x, ⟨dfn x, now, cfg.ttl⟩)) := by
      simp [mapDelete]
    rw [show setCache cfg ((u0 :: mid).map (fun x => (generateCacheKey x, ⟨dfn x, now, cfg.ttl⟩))) now ulast (dfn ulast) =
          mapSet (mid.map (fun x => (generateCacheKey x, ⟨dfn x, now, cfg.ttl⟩)))
            (generateCacheKey ulast) ⟨dfn ulast, now, cfg.ttl⟩ by
      simp only [setCache, hen, Bool.not_true, Bool.false_eq_true, if_false, List.map_cons, firstKey]
      rw [if_pos (by simpa using hsizefull)]
      simp [mapDelete]]
    rw [mapSet_of_get_none _ _ _
      (mapGet_map_keyed_none _ mid ulast (fun hm => hulast_notin (List.mem_cons_of_mem u0 hm)))]
    rw [hr]
    simp
  refine ⟨?_, ?_, ?_⟩
  · rw [hfinal]
    simp [hlen]
  · rw [hfinal]
    exact mapGet_map_keyed_none _ rest u0 (List.nodup_cons.mp hnd).1
  · intro u hu
    rw [hfinal]
    exact mapGet_map_keyed_some _ rest u (List.nodup_cons.mp hnd).2 hu

/-- Claim C5, counterexample at maxSize = 0: inserting maxSize + 1 = 1
distinct key into an empty enabled cache of maxSize 0 leaves 1 entry
(not 0) and the first-inserted key is present (not absent): the eviction
branch finds no oldest key in the empty map and deletes nothing. -/
theorem C5_counterexample :
    (pushAll exCfgZero 0 (fun _ => (0 : Nat)) [] ["u"]).length = 1 ∧
    exCfgZero.maxSize = 0 ∧
    mapGet (pushAll exCfgZero 0 (fun _ => (0 : Nat)) [] ["u"]) (generateCacheKey "u") =
      some { data := 0, timestamp := 0, ttl := 300 } :=
  ⟨rfl, rfl, rfl⟩

/-- Witness for C5_fifo_eviction at maxSize 2 with keys a, b, c. -/
theorem C5_fifo_eviction_witness :
    (pushAll ⟨true, 300, 2⟩ 0 (fun u => u) [] ["a", "b", "c"]).length = 2 ∧
    mapGet (pushAll ⟨true, 300, 2⟩ 0 (fun u => u) [] ["a", "b", "c"]) (generateCacheKey "a") = none ∧
    ∀ u ∈ ["b", "c"],
      mapGet (pushAll ⟨true, 300, 2⟩ 0 (fun u => u) [] ["a", "b", "c"]) (generateCacheKey u) =
        some { data := u, timestamp := 0, ttl := 300 } :=
  C5_fifo_eviction ⟨true, 300, 2⟩ 0 (fun u => u) "a" ["b", "c"] rfl (by decide) (by decide) rfl

/-- Claim C10: setCache checks the size bound before looking at the key,
so a put for an already-present key u with the cache at capacity still
evicts the earliest-inserted entry first.  If that oldest entry is not
u's own, the cache afterwards holds one fewer entry (the overwrite does
not grow it back) and the oldest key is gone; if the oldest entry is u's
own, the size stays at maxSize. -/
theorem C10_overwrite_evicts {α : Type} (cfg : CacheConfig) (cache : CacheMap α)
    (now : Nat) (u : String) (d : α) (k0 : String)
    (hen : cfg.enabled = true) (hnd : keysNodup cache)
    (hfull : cache.length = cfg.maxSize)
    (hhas : mapHas cache (generateCacheKey u) = true)
    (hk0 : firstKey cache = some k0) :
    (k0 ≠ generateCacheKey u →
      (setCache cfg cache now u d).length + 1 = cfg.maxSize ∧
      mapHas (setCache cfg cache now u d) k0 = false) ∧
    (k0 = generateCacheKey u → (setCache cfg cache now u d).length = cfg.maxSize) := by
  have hcond : cfg.maxSize ≤ cache.length := by omega
  have hev : setCache cfg cache now u d =
      mapSet (mapDelete cache k0) (generateCacheKey u)
        { data := d, timestamp := now, ttl := cfg.ttl } := by
    simp [setCache, hen, hk0, hcond]
  have hk0has : mapHas cache k0 = true := by
    cases cache with
    | nil => simp [firstKey] at hk0
    | cons hd tl =>
      obtain ⟨p, v⟩ := hd
      simp [firstKey] at hk0
      subst hk0
      simp [mapHas]
  have hdellen : (mapDelete cache k0).length + 1 = cache.length :=
    length_mapDelete_of_has cache k0 hk0has
  constructor
  · intro hne
    have hne2 : generateCacheKey u ≠ k0 := fun he => hne he.symm
    have hhas2 : mapHas (mapDelete cache k0) (generateCacheKey u) = true := by
      rw [mapHas_mapDelete_ne cache k0 (generateCacheKey u) hne2]
      exact hhas
    constructor
    · rw [hev, length_mapSet_of_has _ _ _ hhas2]
      omega
    · rw [hev, mapHas_mapSet]
      have h1 : mapHas (mapDelete cache k0) k0 = false := mapHas_mapDelete_self cache k0 hnd
      simp [h1, hne2]
  · intro heq
    have h1 : mapHas (mapDelete cache k0) k0 = false := mapHas_mapDelete_self cache k0 hnd
    have h2 : mapGet (mapDelete cache k0) (generateCacheKey u) = none := by
      rw [← heq]
      cases hg : mapGet (mapDelete cache k0) k0 with
      | none => rfl
      | some v =>
        have hcontra := (mapHas_iff_get (mapDelete cache k0) k0).mpr (by simp [hg])
        rw [h1] at hcontra
        exact absurd hcontra (by simp)
    rw [hev, mapSet_of_get_none _ _ _ h2]
    simp only [List.length_append, List.length_cons, List.length_nil]
    omega

/-- Witness for C10_overwrite_evicts: a two-entry cache at capacity 2,
overwriting the newer key b evicts the oldest key a. -/
theorem C10_overwrite_evicts_witness :
    (setCache ⟨true, 300, 2⟩
        [(generateCacheKey "a", ({ data := 1, timestamp := 0, ttl := 300 } : CacheEntry Nat)),
         (generateCacheKey "b", { data := 2, timestamp := 0, ttl := 300 })] 7 "b" 9).length + 1 = 2 ∧
    mapHas (setCache ⟨true, 300, 2⟩
        [(generateCacheKey "a", ({ data := 1, timestamp := 0, ttl := 300 } : CacheEntry Nat)),
         (generateCacheKey "b", { data := 2, timestamp := 0, ttl := 300 })] 7 "b" 9)
      (generateCacheKey "a") = false :=
  (C10_overwrite_evicts ⟨true, 300, 2⟩
      [(generateCacheKey "a", { data := 1, timestamp := 0, ttl := 300 }),
       (generateCacheKey "b", { data := 2, timestamp := 0, ttl := 300 })] 7 "b" 9
      (generateCacheKey "a") rfl (by unfold keysNodup; decide) rfl (by decide) rfl).1
    (by decide)

/-! ## Retry claims -/

/-- Claim C1, the code evaluated at the failing input: on HTTP 429 with
a Retry-After of 120 s the transport throws
FetchtiumError.rateLimited(120), whose statusCode is 429 but whose
context.retryAfter is unset (the factory records the hint only in the
message text).  The orchestrator's server-delay branch requires a truthy
context.retryAfter, so the wait before the first retry under the default
config is the plain backoff delay 1000 ms, not
max(1000, 120*1000) = 120000 ms as the claim states. -/
theorem C1_retry_after_dropped :
    (FetchtiumError.rateLimited (some 120)).statusCode = some 429 ∧
    (FetchtiumError.rateLimited (some 120)).context.retryAfter = none ∧
    retryWaitMs defaultRetryConfig (FetchtiumError.rateLimited (some 120)) 1 = 1000 ∧
    max (defaultRetryConfig.retryDelay * defaultRetryConfig.backoffMultiplier ^ (1 - 1))
      (120 * 1000) = 120000 := by
  refine ⟨rfl, rfl, rfl, by decide⟩

theorem retryAux_failNThen {α : Type} (retryable : FetchtiumError → Bool)
    (e : FetchtiumError) (v : α) (n : Nat) (hre : retryable e = true) :
    ∀ (remaining calls : Nat), calls ≤ n →
      retryAux retryable (failNThen e v n) calls remaining =
        if n ≤ calls + remaining then (.ok v, n + 1) else (.error e, calls + remaining + 1) := by
  intro remaining
  induction remaining with
  | zero =>
    intro calls hc
    by_cases hcn : calls < n
    · rw [show retryAux retryable (failNThen e v n) calls 0 = (.error e, calls + 1) by
        simp [retryAux, failNThen, hcn]]
      rw [if_neg (by omega)]
    · have hceq : calls = n := by omega
      rw [show retryAux retryable (failNThen e v n) calls 0 = (.ok v, calls + 1) by
        simp [retryAux, failNThen, hcn]]
      rw [if_pos (by omega), hceq]
  | succ r ih =>
    intro calls hc
    by_cases hcn : calls < n
    · rw [show retryAux retryable (failNThen e v n) calls (r + 1) =
          retryAux retryable (failNThen e v n) (calls + 1) r by
        simp [retryAux, failNThen, hcn, hre]]
      rw [ih (calls + 1) (by omega)]
      by_cases hcond : n ≤ calls + (r + 1)
      · rw [if_pos (by omega), if_pos hcond]
      · rw [if_neg (by omega), if_neg hcond]
        have harith : calls + 1 + r + 1 = calls + (r + 1) + 1 := by omega
        rw [harith]
    · have hceq : calls = n := by omega
      rw [show retryAux retryable (failNThen e v n) calls (r + 1) = (.ok v, calls + 1) by
        simp [retryAux, failNThen, hcn]]
      rw [if_pos (by omega), hceq]

/-- Claim C6: against a transport that fails with a RateLimited error on
the first n invocations and succeeds on invocation n+1, with RATE_LIMITED
in the retryable set (as in the default config), fetchWithRetry returns
the success after exactly n+1 invocations when maxRetries ≥ n, and
throws the last attempt's error after exactly maxRetries+1 invocations
when maxRetries < n. -/
theorem C6_retry_count {α : Type} (cfg : RetryConfig) (e : FetchtiumError) (v : α) (n : Nat)
    (hcode : e.code = "RATE_LIMITED")
    (hret : cfg.retryableErrors.contains e.code = true) :
    (n ≤ cfg.maxRetries → fetchWithRetryModel cfg (failNThen e v n) = (.ok v, n + 1)) ∧
    (cfg.maxRetries < n →
      fetchWithRetryModel cfg (failNThen e v n) = (.error e, cfg.maxRetries + 1)) := by
  have hkey := retryAux_failNThen (fun err => cfg.retryableErrors.contains err.code) e v n hret
    cfg.maxRetries 0 (by omega)
  constructor
  · intro hle
    unfold fetchWithRetryModel
    rw [hkey, if_pos (by omega)]
  · intro hlt
    unfold fetchWithRetryModel
    rw [hkey, if_neg (by omega)]
    rw [Nat.zero_add]

/-- Witness for C6_retry_count: two failures then success; maxRetries 3
succeeds with 3 invocations, maxRetries 1 throws after 2 invocations. -/
theorem C6_retry_count_witness :
    fetchWithRetryModel defaultRetryConfig
        (failNThen (FetchtiumError.rateLimited none) (0 : Nat) 2) = (.ok 0, 3) ∧
    fetchWithRetryModel { defaultRetryConfig with maxRetries := 1 }
        (failNThen (FetchtiumError.rateLimited none) (0 : Nat) 2) =
      (.error (FetchtiumError.rateLimited none), 2) :=
  ⟨(C6_retry_count defaultRetryConfig (FetchtiumError.rateLimited none) 0 2 rfl
      (by decide)).1 (by decide),
   (C6_retry_count { defaultRetryConfig with maxRetries := 1 }
      (FetchtiumError.rateLimited none) 0 2 rfl (by decide)).2 (by decide)⟩

/-! ## Validation and platform claims -/

theorem validateURL_invalid (parse : URLParser) (url : String)
    (h : isValidURL parse url = false) :
    validateURL parse url = .error (FetchtiumError.invalidURL url) := by
  unfold validateURL
  by_cases he : url = ""
  · simp [he]
  · simp [he, h]

/-- Claim C7: a string that is not a syntactically valid absolute
http/https URL makes each of fetch, merge and convert fail with
INVALID_URL, with zero HTTP transport invocations. -/
theorem C7_invalid_url_no_transport {α β γ : Type} (parse : URLParser) (url : String)
    (cacheCfg : CacheConfig) (cache : CacheMap (FetchtiumResponse α)) (now : Nat)
    (requestId : String) (tF : Except FetchtiumError (FetchtiumResponse α))
    (tM : Except FetchtiumError β) (tC : Except FetchtiumError γ)
    (quality : String) (format : Option String)
    (hinv : isValidURL parse url = false) :
    fetchModel parse cacheCfg cache now requestId tF url =
      (.error (FetchtiumError.invalidURL url), 0, cache) ∧
    mergeModel parse tM url quality = (.error (FetchtiumError.invalidURL url), 0) ∧
    convertModel parse tC url format = (.error (FetchtiumError.invalidURL url), 0) := by
  have hval := validateURL_invalid parse url hinv
  refine ⟨?_, ?_, ?_⟩
  · simp [fetchModel, hval]
  · simp [mergeModel, hval]
  · simp [convertModel, hval]

/-- Witness for C7_invalid_url_no_transport on the unparseable string
not-a-url. -/
theorem C7_invalid_url_no_transport_witness :
    fetchModel noParse exCacheCfg [] 0 "rid" (.ok { success := true, payload := (0 : Nat) })
        "not-a-url" = (.error (FetchtiumError.invalidURL "not-a-url"), 0, []) ∧
    mergeModel noParse (.ok (0 : Nat)) "not-a-url" "720p" =
      (.error (FetchtiumError.invalidURL "not-a-url"), 0) ∧
    convertModel noParse (.ok (0 : Nat)) "not-a-url" none =
      (.error (FetchtiumError.invalidURL "not-a-url"), 0) :=
  C7_invalid_url_no_transport noParse "not-a-url" exCacheCfg [] 0 "rid"
    (.ok { success := true, payload := 0 }) (.ok 0) (.ok 0) "720p" none rfl

theorem detectPlatform_eq (parse : URLParser) (url : String) (parts : URLParts)
    (hp : parse url = some parts)
    (hproto : parts.protocol = "http:" ∨ parts.protocol = "https:") :
    detectPlatform parse url =
      (PLATFORM_PATTERNS.find?
        (fun pr => pr.2.any (fun pat => strContainsSeg (strToLower parts.hostname) pat))).map
        (fun pr => pr.1) := by
  have hvalid : isValidURL parse url = true := by
    unfold isValidURL
    rw [hp]
    rcases hproto with h | h <;> simp [h]
  simp [detectPlatform, hvalid, hp]

/-- Claim C9: platform patterns are tested as unanchored substring
matches against the lowercased hostname, so any valid http/https URL
whose hostname merely contains some platform's pattern is classified as
a platform (never unsupported); in particular a hostname containing
instagram.com — such as instagram.com.attacker.net — is classified as
instagram. -/
theorem C9_substring_platform (parse : URLParser) (url : String) (parts : URLParts)
    (plat : Platform) (pats : List String) (pat : String)
    (hp : parse url = some parts)
    (hproto : parts.protocol = "http:" ∨ parts.protocol = "https:")
    (hmem : (plat, pats) ∈ PLATFORM_PATTERNS) (hpat : pat ∈ pats)
    (hsub : strContainsSeg (strToLower parts.hostname) pat = true) :
    (detectPlatform parse url).isSome = true ∧
    (strContainsSeg (strToLower parts.hostname) "instagram.com" = true →
      detectPlatform parse url = some Platform.instagram) := by
  constructor
  · rw [detectPlatform_eq parse url parts hp hproto]
    cases hf : PLATFORM_PATTERNS.find?
        (fun pr => pr.2.any (fun pat2 => strContainsSeg (strToLower parts.hostname) pat2)) with
    | none =>
      exfalso
      have hnone := List.find?_eq_none.mp hf (plat, pats) hmem
      have hany : ((plat, pats) : Platform × List String).2.any
          (fun pat2 => strContainsSeg (strToLower parts.hostname) pat2) = true := by
        rw [List.any_eq_true]
        exact ⟨pat, hpat, hsub⟩
      exact hnone (by simpa using hany)
    | some a =>
      rfl
  · intro hin
    rw [detectPlatform_eq parse url parts hp hproto]
    have hhead : (["instagram.com", "instagr.am"] : List String).any
        (fun pat2 => strContainsSeg (strToLower parts.hostname) pat2) = true := by
      rw [List.any_eq_true]
      exact ⟨"instagram.com", by simp, hin⟩
    rw [show PLATFORM_PATTERNS.find?
          (fun pr => pr.2.any (fun pat2 => strContainsSeg (strToLower parts.hostname) pat2)) =
        some (Platform.instagram, ["instagram.com", "instagr.am"]) by
      unfold PLATFORM_PATTERNS
      exact List.find?_cons_of_pos _ hhead]
    rfl

/-- Witness for C9_substring_platform on the hostile hostname
instagram.com.attacker.net. -/
theorem C9_substring_platform_witness :
    (detectPlatform exParse "https://instagram.com.attacker.net/p/x").isSome = true ∧
    (strContainsSeg (strToLower "instagram.com.attacker.net") "instagram.com" = true →
      detectPlatform exParse "https://instagram.com.attacker.net/p/x" =
        some Platform.instagram) :=
  C9_substring_platform exParse "https://instagram.com.attacker.net/p/x"
    { protocol := "https:", hostname := "instagram.com.attacker.net" }
    Platform.instagram ["instagram.com", "instagr.am"] "instagram.com"
    rfl (Or.inr rfl) (by decide) (by decide) (by decide)

/-! ## Batch claims -/

/-- Claim C2, counterexample: two batches over the same urls that differ
only in the first item's outcome (success value 1 versus 2) produce the
very same rejection value when the second item fails under
stopOnError = true, while the internal results arrays differ.  The
caller-visible value of the batch call is only the failing item's
FetchtiumError, so the partial per-URL results recorded before the
failure are not exposed to the caller. -/
theorem C2_counterexample :
    (fetchBatchSeq exBatchT1 true ["u1", "u2"] []).1 = .error exErr429 ∧
    (fetchBatchSeq exBatchT3 true ["u1", "u2"] []).1 = .error exErr429 ∧
    (fetchBatchSeq exBatchT1 true ["u1", "u2"] []).2 ≠
      (fetchBatchSeq exBatchT3 true ["u1", "u2"] []).2 := by
  refine ⟨rfl, rfl, by decide⟩

/-- Claim C2 (amended): with stopOnError = true, when the items before u
all succeed and u fails, the whole batch call rejects with exactly the
failing item's error; the failing item's outcome and the prior successes
are recorded in the method-local results array before propagation, but
the caller receives only the bare FetchtiumError. -/
theorem C2_stop_on_error {α : Type} (fetchOne : String → Except FetchtiumError α)
    (ds : String → α) (urls : List String) (u : String) (rest : List String)
    (e : FetchtiumError) (results : List (BatchResult α))
    (hok : ∀ x ∈ urls, fetchOne x = .ok (ds x)) (herr : fetchOne u = .error e) :
    fetchBatchSeq fetchOne true (urls ++ u :: rest) results =
      (.error e,
        results ++ urls.map (fun x => { url := x, success := true, data := some (ds x) }) ++
          [{ url := u, success := false, error := some e }]) := by
  induction urls generalizing results with
  | nil =>
    simp [fetchBatchSeq, herr]
  | cons x xs ih =>
    have hx : fetchOne x = .ok (ds x) := hok x (by simp)
    rw [show (x :: xs) ++ u :: rest = x :: (xs ++ u :: rest) by simp]
    rw [show fetchBatchSeq fetchOne true (x :: (xs ++ u :: rest)) results =
        fetchBatchSeq fetchOne true (xs ++ u :: rest)
          (results ++ [{ url := x, success := true, data := some (ds x) }]) by
      simp [fetchBatchSeq, hx]]
    have hih := ih (results ++ [({ url := x, success := true, data := some (ds x) } : BatchResult α)])
      (fun y hy => hok y (List.mem_cons_of_mem x hy))
    rw [hih]
    simp

/-- Witness for C2_stop_on_error: u1 succeeds, u2 fails. -/
theorem C2_stop_on_error_witness :
    fetchBatchSeq exBatchT1 true (["u1"] ++ "u2" :: []) [] =
      (.error exErr429,
        [] ++ ["u1"].map (fun x => { url := x, success := true, data := some ((fun _ => (1 : Nat)) x) }) ++
          [{ url := "u2", success := false, error := some exErr429 }]) :=
  C2_stop_on_error exBatchT1 (fun _ => 1) ["u1"] "u2" [] exErr429 []
    (by intro x hx; simp at hx; subst hx; rfl) rfl

/-! ## Gate claims -/

theorem processQueue_spec (maxC : Nat) :
    ∀ (q : List Nat) (a : Nat) (r u : List Nat),
      processQueue maxC ⟨a, r, q, u⟩ =
        ⟨a + min (maxC - a) q.length,
         r ++ q.take (min (maxC - a) q.length),
         q.drop (min (maxC - a) q.length), u⟩ := by
  intro q
  induction q with
  | nil =>
    intro a r u
    rw [processQueue]
    simp
  | cons h t ih =>
    intro a r u
    rw [processQueue]
    by_cases hc : a < maxC
    · simp only [hc, if_true]
      rw [ih (a + 1) (r ++ [h]) u]
      have hmin2 : min (maxC - a) (t.length + 1) = min (maxC - (a + 1)) t.length + 1 := by
        omega
      simp only [GateState.mk.injEq, List.length_cons, and_true]
      refine ⟨by omega, ?_, ?_⟩
      · rw [hmin2, List.take_succ_cons]
        simp
      · rw [hmin2, List.drop_succ_cons]
    · simp only [hc, if_false]
      have hsub0 : maxC - a = 0 := by omega
      simp [hsub0]

theorem gateInv_processQueue (maxC : Nat) (s : GateState) (hinv : GateInv maxC s) :
    GateInv maxC (processQueue maxC s) := by
  obtain ⟨a, r, q, u⟩ := s
  obtain ⟨h1, h2, h3, h4, h5, h6, h7⟩ := hinv
  simp only at h1 h2 h3 h4 h5 h6 h7
  rw [processQueue_spec maxC q a r u]
  have hkle : min (maxC - a) q.length ≤ q.length := Nat.min_le_right _ _
  refine ⟨?_, ?_, ?_, ?_, ?_, ?_, ?_⟩
  · simp only [List.length_append, List.length_take]
    omega
  · simp only
    omega
  · exact h3.sublist (List.drop_sublist _ _)
  · refine h4.append (h3.sublist (List.take_sublist _ _)) ?_
    intro x hx1 hx2
    exact h5 x (List.mem_of_mem_take hx2) hx1
  · intro x hx
    simp only at hx
    simp only [List.mem_append]
    push_neg
    constructor
    · exact h5 x (List.mem_of_mem_drop hx)
    · intro hc
      exact absurd hx (List.disjoint_take_drop h3 (le_refl _) hc)
  · intro x hx
    simp only at hx ⊢
    exact h6 x (List.mem_of_mem_drop hx)
  · intro x hx
    simp only [List.mem_append] at hx
    rcases hx with hx | hx
    · exact h7 x hx
    · exact h6 x (List.mem_of_mem_take hx)

theorem gateInv_step (maxC : Nat) (s t : GateState) (hinv : GateInv maxC s)
    (hstep : GateStep maxC s t) : GateInv maxC t := by
  obtain ⟨h1, h2, h3, h4, h5, h6, h7⟩ := hinv
  cases hstep with
  | arriveRun r2 s hfresh hcap =>
    refine ⟨?_, ?_, ?_, ?_, ?_, ?_, ?_⟩
    · simp [h1]
    · simp only
      omega
    · exact h3
    · refine h4.append (List.nodup_singleton r2) ?_
      intro x hx1 hx2
      simp at hx2
      subst hx2
      exact hfresh (h7 x hx1)
    · intro x hx
      simp only [List.mem_append, List.mem_singleton]
      push_neg
      exact ⟨h5 x hx, fun he => hfresh (he ▸ h6 x hx)⟩
    · intro x hx
      exact List.mem_append_left _ (h6 x hx)
    · intro x hx
      simp only [List.mem_append, List.mem_singleton] at hx ⊢
      rcases hx with hx | hx
      · exact Or.inl (h7 x hx)
      · exact Or.inr hx
  | arriveQueue r2 s hfresh hcap =>
    refine ⟨h1, h2, ?_, h4, ?_, ?_, ?_⟩
    · refine h3.append (List.nodup_singleton r2) ?_
      intro x hx1 hx2
      simp at hx2
      subst hx2
      exact hfresh (h6 x hx1)
    · intro x hx
      simp only [List.mem_append, List.mem_singleton] at hx
      rcases hx with hx | hx
      · exact h5 x hx
      · subst hx
        intro hc
        exact hfresh (h7 x hc)
    · intro x hx
      simp only [List.mem_append, List.mem_singleton] at hx ⊢
      rcases hx with hx | hx
      · exact Or.inl (h6 x hx)
      · exact Or.inr hx
    · intro x hx
      exact List.mem_append_left _ (h7 x hx)
  | complete r2 s hr2 =>
    apply gateInv_processQueue
    refine ⟨?_, ?_, h3, h4.erase r2, ?_, h6, ?_⟩
    · simp only [List.length_erase_of_mem hr2, h1]
    · simp only
      omega
    · intro x hx
      intro hc
      exact h5 x hx (List.erase_subset _ _ hc)
    · intro x hx
      exact h7 x (List.erase_subset _ _ hx)
  | timeoutFire r2 s hq2 =>
    refine ⟨h1, h2, h3.erase r2, h4, ?_, ?_, h7⟩
    · intro x hx
      exact h5 x (List.erase_subset _ _ hx)
    · intro x hx
      exact h6 x (List.erase_subset _ _ hx)

theorem gateInv_steps (maxC : Nat) (s t : GateState) (hs : GateSteps maxC s t)
    (hinv : GateInv maxC s) : GateInv maxC t := by
  induction hs with
  | refl => exact hinv
  | tail hst hstep ih => exact gateInv_step maxC _ _ ih hstep

theorem gateInv_reachable (maxC : Nat) (s : GateState) (h : GateReachable maxC s) :
    GateInv maxC s := by
  refine gateInv_steps maxC initialGate s h ?_
  refine ⟨rfl, by simp [initialGate], ?_, ?_, ?_, ?_, ?_⟩ <;> simp [initialGate]

/-- Claim C4: in every reachable gate state the activeRequests counter
never exceeds maxConcurrent and equals the number of tasks executing
the wrapped body; and the drain loop admits queued callers strictly from
the front of the queue, in order — processQueue moves exactly the first
min(maxConcurrent − active, queue length) queued callers, in arrival
order, into the running set. -/
theorem C4_gate_bound_fifo (maxC : Nat) (s : GateState) (h : GateReachable maxC s) :
    s.active ≤ maxC ∧ s.active = s.running.length ∧
    (∀ t : GateState, processQueue maxC t =
      ⟨t.active + min (maxC - t.active) t.queue.length,
       t.running ++ t.queue.take (min (maxC - t.active) t.queue.length),
       t.queue.drop (min (maxC - t.active) t.queue.length), t.used⟩) := by
  have hinv := gateInv_reachable maxC s h
  refine ⟨hinv.2.1, hinv.1, ?_⟩
  intro t
  obtain ⟨a, r, q, u⟩ := t
  exact processQueue_spec maxC q a r u

/-- Witness for C4_gate_bound_fifo at the state reached by one admitted
arrival against a gate of size 1. -/
theorem C4_gate_bound_fifo_witness :
    (⟨1, [0], [], [0]⟩ : GateState).active ≤ 1 ∧
    (⟨1, [0], [], [0]⟩ : GateState).active = (⟨1, [0], [], [0]⟩ : GateState).running.length ∧
    (∀ t : GateState, processQueue 1 t =
      ⟨t.active + min (1 - t.active) t.queue.length,
       t.running ++ t.queue.take (min (1 - t.active) t.queue.length),
       t.queue.drop (min (1 - t.active) t.queue.length), t.used⟩) :=
  C4_gate_bound_fifo 1 ⟨1, [0], [], [0]⟩
    (GateSteps.tail (GateSteps.refl initialGate)
      (GateStep.arriveRun 0 initialGate (by simp [initialGate]) (by simp [initialGate])))

theorem processQueue_spec2 (maxC : Nat) (s : GateState) :
    processQueue maxC s =
      ⟨s.active + min (maxC - s.active) s.queue.length,
       s.running ++ s.queue.take (min (maxC - s.active) s.queue.length),
       s.queue.drop (min (maxC - s.active) s.queue.length), s.used⟩ := by
  obtain ⟨a, r, q, u⟩ := s
  exact processQueue_spec maxC q a r u

theorem gate_notin_step (maxC : Nat) (rid : Nat) (s t : GateState)
    (hstep : GateStep maxC s t) (hused : rid ∈ s.used) (hrun : rid ∉ s.running)
    (hque : rid ∉ s.queue) : rid ∈ t.used ∧ rid ∉ t.running ∧ rid ∉ t.queue := by
  cases hstep with
  | arriveRun r2 s hfresh hcap =>
    refine ⟨List.mem_append_left _ hused, ?_, hque⟩
    simp only [List.mem_append, List.mem_singleton]
    push_neg
    exact ⟨hrun, fun he => hfresh (he ▸ hused)⟩
  | arriveQueue r2 s hfresh hcap =>
    refine ⟨List.mem_append_left _ hused, hrun, ?_⟩
    simp only [List.mem_append, List.mem_singleton]
    push_neg
    exact ⟨hque, fun he => hfresh (he ▸ hused)⟩
  | complete r2 s hr2 =>
    rw [processQueue_spec2]
    refine ⟨hused, ?_, ?_⟩
    · simp only [List.mem_append]
      push_neg
      constructor
      · intro hc
        exact hrun (List.erase_subset _ _ hc)
      · intro hc
        exact hque (List.mem_of_mem_take hc)
    · simp only
      intro hc
      exact hque (List.mem_of_mem_drop hc)
  | timeoutFire r2 s hq2 =>
    refine ⟨hused, hrun, ?_⟩
    intro hc
    exact hque (List.erase_subset _ _ hc)

theorem gate_notin_preserved (maxC : Nat) (rid : Nat) (s t : GateState)
    (hsteps : GateSteps maxC s t) (hused : rid ∈ s.used) (hrun : rid ∉ s.running)
    (hque : rid ∉ s.queue) : rid ∈ t.used ∧ rid ∉ t.running ∧ rid ∉ t.queue := by
  induction hsteps with
  | refl => exact ⟨hused, hrun, hque⟩
  | tail hst hstep ih =>
    obtain ⟨hu, hr, hq⟩ := ih
    exact gate_notin_step maxC rid _ _ hstep hu hr hq

/-- Claim C8: a queued caller whose wait exceeds queueTimeout is
rejected with a TIMEOUT error (the value FetchtiumError.timeoutError
builds for the configured queueTimeout), its entry is spliced out of the
queue by the timer callback, and from the resulting state no sequence of
gate steps ever places it in the running set or back in the queue. -/
theorem C8_queue_timeout (maxC qt : Nat) (s : GateState) (rid : Nat)
    (hreach : GateReachable maxC s) (hq : rid ∈ s.queue) :
    (FetchtiumError.timeoutError qt).code = "TIMEOUT" ∧
    GateStep maxC s { s with queue := s.queue.erase rid } ∧
    rid ∉ ({ s with queue := s.queue.erase rid } : GateState).queue ∧
    (∀ t : GateState, GateSteps maxC { s with queue := s.queue.erase rid } t →
      rid ∉ t.running ∧ rid ∉ t.queue) := by
  have hinv := gateInv_reachable maxC s hreach
  have hrnotrun : rid ∉ s.running := hinv.2.2.2.2.1 rid hq
  have hrused : rid ∈ s.used := hinv.2.2.2.2.2.1 rid hq
  have hqnodup : s.queue.Nodup := hinv.2.2.1
  have hnotin_erase : rid ∉ s.queue.erase rid := hqnodup.not_mem_erase
  refine ⟨rfl, GateStep.timeoutFire rid s hq, hnotin_erase, ?_⟩
  intro t hsteps
  have hpres := gate_notin_preserved maxC rid _ t hsteps hrused hrnotrun hnotin_erase
  exact ⟨hpres.2.1, hpres.2.2⟩

/-- Witness for C8_queue_timeout: one caller queued against a gate of
size 0 times out. -/
theorem C8_queue_timeout_witness :
    (FetchtiumError.timeoutError 5).code = "TIMEOUT" ∧
    GateStep 0 ⟨0, [], [0], [0]⟩
      { (⟨0, [], [0], [0]⟩ : GateState) with queue := ([0] : List Nat).erase 0 } ∧
    (0 : Nat) ∉ ({ (⟨0, [], [0], [0]⟩ : GateState) with queue := ([0] : List Nat).erase 0 } : GateState).queue ∧
    (∀ t : GateState,
      GateSteps 0 { (⟨0, [], [0], [0]⟩ : GateState) with queue := ([0] : List Nat).erase 0 } t →
      (0 : Nat) ∉ t.running ∧ (0 : Nat) ∉ t.queue) :=
  C8_queue_timeout 0 5 ⟨0, [], [0], [0]⟩ 0
    (GateSteps.tail (GateSteps.refl initialGate)
      (GateStep.arriveQueue 0 initialGate (by simp [initialGate]) (by simp [initialGate])))
    (by simp)
